import Mathlib

/-!
Verification development for the nzoth schema-registration and
documentation-assembly subsystem, together with its query-string parsers
and validation/serialization error pipeline.

The definitions below are shallow embeddings of the TypeScript sources:
  - packages/core/src/openapi/openapi.ts
      (SCHEMA_STORAGE, GLOBAL_SCHEMA_REGISTRY, registerSchemaRef,
       getOpenApiSchema, createOpenApiDocument)
  - packages/core/src/validation/typed-route.decorator.ts
      (PENDING_ROUTE_METADATA, createRouteDecorator, TypedRouteInterceptor)
  - packages/core/src/validation/typed-controller.decorator.ts
      (applyControllerParametersToRoutes, extractParamNames)
  - packages/core/src/validation/validation.exception.ts,
    validation.exception.filter.ts and validation.pipe.ts
  - packages/core/src/filtering/filtering.ts with utils/schema.ts
  - packages/core/src/sorting/sorting.ts

JavaScript Map objects are modelled by association lists with
insertion-order iteration, update-in-place on existing keys and append on
new keys, exactly as a JS Map behaves.  Module-level mutable state (the
schema storages, the global registry, the conversion cache, the
pending-route side table) is threaded explicitly.  The two external
capabilities the subsystem consumes — Zod parsing and Zod-to-OpenAPI
structural conversion — are taken as function parameters.
-/

namespace Nzoth

/-! ### Association lists modelling JS Map / plain-object records -/

/-- A JS Map with string keys: an association list iterated in order. -/
abbrev AList (β : Type) := List (String × β)

namespace AList

/-- First-some choice, used to state lookups where later entries win. -/
def oor {α : Type} : Option α → Option α → Option α
  | some x, _ => some x
  | none, b => b

/-- Lookup with later bindings taking precedence (a JS Map holds one
binding per key; on raw lists the last write wins, matching `set`). -/
def get {β : Type} : AList β → String → Option β
  | [], _ => none
  | (k, v) :: tl, n => oor (get tl n) (if n = k then some v else none)

/-- Replace every binding of `k` by `v` without appending. -/
def repl {β : Type} : AList β → String → β → AList β
  | [], _, _ => []
  | (k', v') :: tl, k, v =>
    if k' = k then (k, v) :: repl tl k v else (k', v') :: repl tl k v

/-- JS `Map.set`: update in place when the key exists (keeping its
position), append at the end otherwise. -/
def set {β : Type} : AList β → String → β → AList β
  | [], k, v => [(k, v)]
  | (k', v') :: tl, k, v =>
    if k' = k then (k, v) :: repl tl k v else (k', v') :: set tl k v

/-- JS `Map.delete`: remove the binding of a key. -/
def erase {β : Type} : AList β → String → AList β
  | [], _ => []
  | (k', v') :: tl, k =>
    if k' = k then erase tl k else (k', v') :: erase tl k

/-- Copy every entry of `m` into `base` in iteration order
(the merge loops of `createOpenApiDocument`). -/
def setAll {β : Type} : AList β → AList β → AList β
  | base, [] => base
  | base, (k, v) :: tl => setAll (base.set k v) tl

end AList

/-! ### OpenAPI schema objects

`JSchema` embeds the `SchemaObject`/`ReferenceObject` values the openapi
module manipulates.  The fields relevant to the registration algorithm are
kept structurally (`title`, the `_def.openapi.id` escape hatch `oid`,
`properties`, `items`); every other field (`type`, `description`,
constraint keywords, ...) is inert data carried in `rest` — the TS code
copies them verbatim with an object spread. -/

mutual

inductive JSchema : Type where
  | ref (target : String)
  | node (title : Option String) (oid : Option String)
      (props : JProps) (items : JItems) (rest : List (String × String))

inductive JProps : Type where
  | nil
  | cons (key : String) (val : JSchema) (tail : JProps)

inductive JItems : Type where
  | noItems
  | someItems (s : JSchema)

end

deriving instance DecidableEq for JSchema

/-- The five usage categories of `SCHEMA_STORAGE` (`SchemaType` in the
source). -/
inductive SchemaType : Type where
  | Body | Query | Route | Form | Other
deriving DecidableEq

abbrev SMap := AList JSchema

/-- `SCHEMA_STORAGE`: one JS Map per category. -/
structure Storage where
  body : SMap
  query : SMap
  route : SMap
  form : SMap
  other : SMap
deriving DecidableEq

/-- `SCHEMA_STORAGE[type]`. -/
def Storage.getMap (s : Storage) : SchemaType → SMap
  | .Body => s.body
  | .Query => s.query
  | .Route => s.route
  | .Form => s.form
  | .Other => s.other

/-- `SCHEMA_STORAGE[type].set(name, v)`. -/
def Storage.setIn (s : Storage) : SchemaType → String → JSchema → Storage
  | .Body, k, v => { s with body := s.body.set k v }
  | .Query, k, v => { s with query := s.query.set k v }
  | .Route, k, v => { s with route := s.route.set k v }
  | .Form, k, v => { s with form := s.form.set k v }
  | .Other, k, v => { s with other := s.other.set k v }

/-- The mutable module state of openapi.ts: the per-category storage plus
the flat `GLOBAL_SCHEMA_REGISTRY`. -/
structure RegState where
  storage : Storage
  global : SMap
deriving DecidableEq

def emptyStorage : Storage := ⟨[], [], [], [], []⟩

def emptyReg : RegState := ⟨emptyStorage, []⟩

/-- JS truthiness of an optional string: `undefined` and `""` are falsy. -/
def truthy : Option String → Option String
  | some "" => none
  | o => o

/-- `"#/components/schemas/" + name`. -/
def refPath (n : String) : String := "#/components/schemas/" ++ n

/-- A truthy identifier differing from the registration name, if any. -/
def hoistBy (name : String) (o : Option String) : Option String :=
  match truthy o with
  | some v => if v = name then none else some v
  | none => none

/-- The name under which `cleanupSchema` would hoist a node out of its
parent, if any: a truthy `title` different from the registration name
wins, else a truthy `_def.openapi.id` different from the name. -/
def hoistId (name : String) (title oid : Option String) : Option String :=
  AList.oor (hoistBy name title) (hoistBy name oid)

/-- `SCHEMA_STORAGE.Other.set(id, obj); GLOBAL_SCHEMA_REGISTRY.set(id, obj)`:
the registration performed for each hoisted nested schema. -/
def RegState.putOther (s : RegState) (k : String) (v : JSchema) : RegState :=
  { storage := { s.storage with other := s.storage.other.set k v },
    global := s.global.set k v }

mutual

/-- `cleanupSchema` from `registerSchemaRef` (openapi.ts): recursively
walks `properties` and `items`; a node whose truthy `title` (or, failing
that, truthy `_def.openapi.id`) differs from `name` is registered as-is
under that identifier in the Other map and the global registry, and is
replaced in the parent by a `$ref` — without recursing into it. -/
def cleanupS (name : String) : JSchema → RegState → JSchema × RegState
  | .ref t, s => (.ref t, s)
  | .node title oid props items rest, s =>
    match hoistId name title oid with
    | some h => (.ref (refPath h), s.putOther h (.node title oid props items rest))
    | none =>
      let ps := cleanupP name props s
      let is := cleanupI name items ps.snd
      (.node title oid ps.fst is.fst rest, is.snd)

def cleanupP (name : String) : JProps → RegState → JProps × RegState
  | .nil, s => (.nil, s)
  | .cons k v tl, s =>
    let vs := cleanupS name v s
    let ts := cleanupP name tl vs.snd
    (.cons k vs.fst ts.fst, ts.snd)

def cleanupI (name : String) : JItems → RegState → JItems × RegState
  | .noItems, s => (.noItems, s)
  | .someItems v, s =>
    let vs := cleanupS name v s
    (.someItems vs.fst, vs.snd)

end

/-- `registerSchemaRef(name, schema, type)`: cleans the schema, stores the
cleaned structure under `name` in the category map and the global
registry, and returns `{ $ref: "#/components/schemas/name" }`. -/
def registerSchemaRef (name : String) (schema : JSchema) (ty : SchemaType)
    (s : RegState) : JSchema × RegState :=
  let cs := cleanupS name schema s
  (.ref (refPath name),
    { storage := cs.snd.storage.setIn ty name cs.fst,
      global := cs.snd.global.set name cs.fst })

mutual

/-- Pure projection of `cleanupSchema`: the structure it returns, with
every maximal hoistable node replaced by a `$ref`. -/
def replaceMaxS (name : String) : JSchema → JSchema
  | .ref t => .ref t
  | .node title oid props items rest =>
    match hoistId name title oid with
    | some h => .ref (refPath h)
    | none => .node title oid (replaceMaxP name props) (replaceMaxI name items) rest

def replaceMaxP (name : String) : JProps → JProps
  | .nil => .nil
  | .cons k v tl => .cons k (replaceMaxS name v) (replaceMaxP name tl)

def replaceMaxI (name : String) : JItems → JItems
  | .noItems => .noItems
  | .someItems v => .someItems (replaceMaxS name v)

end

mutual

/-- The identifiers of the maximal hoistable nodes: those the walk of
`cleanupSchema` actually registers and replaces. -/
def maxTitlesS (name : String) : JSchema → List String
  | .ref _ => []
  | .node title oid props items _ =>
    match hoistId name title oid with
    | some h => [h]
    | none => maxTitlesP name props ++ maxTitlesI name items

def maxTitlesP (name : String) : JProps → List String
  | .nil => []
  | .cons _ v tl => maxTitlesS name v ++ maxTitlesP name tl

def maxTitlesI (name : String) : JItems → List String
  | .noItems => []
  | .someItems v => maxTitlesS name v

end

mutual

/-- All truthy titles different from `name` carried by nodes anywhere in
the tree, including inside other titled nodes (the set of nested titled
nodes the claim quantifies over). -/
def allTitledS (name : String) : JSchema → List String
  | .ref _ => []
  | .node title _ props items _ =>
    (match hoistBy name title with | some t => [t] | none => []) ++
      allTitledP name props ++ allTitledI name items

def allTitledP (name : String) : JProps → List String
  | .nil => []
  | .cons _ v tl => allTitledS name v ++ allTitledP name tl

def allTitledI (name : String) : JItems → List String
  | .noItems => []
  | .someItems v => allTitledS name v

end

/-- The titled nodes nested under `properties` or `items` of the root (the
root itself excluded), as the claim describes them. -/
def nestedTitled (name : String) : JSchema → List String
  | .ref _ => []
  | .node _ _ props items _ => allTitledP name props ++ allTitledI name items

mutual

/-- No node of the tree is hoistable: `cleanupSchema` leaves such a
structure untouched and performs no registration. -/
def hoistFreeS (name : String) : JSchema → Bool
  | .ref _ => true
  | .node title oid props items _ =>
    (hoistId name title oid).isNone && hoistFreeP name props && hoistFreeI name items

def hoistFreeP (name : String) : JProps → Bool
  | .nil => true
  | .cons _ v tl => hoistFreeS name v && hoistFreeP name tl

def hoistFreeI (name : String) : JItems → Bool
  | .noItems => true
  | .someItems v => hoistFreeS name v

end

/-! ### Structural converter with memoization (`getOpenApiSchema`)

Zod schema instances are identified by opaque keys (the `WeakMap` cache is
keyed by object identity).  The external `createSchema` conversion of
zod-openapi is a parameter `conv` giving, per instance, the converted
schema object and the optional `components.schemas` record; the
`_def.openapi.id` attribute of an instance is the parameter `oidOf`. -/

structure CacheEntry where
  schema : JSchema
  components : Option SMap
deriving DecidableEq

/-- `OPENAPI_CACHE`. -/
abbrev Cache := AList CacheEntry

structure ConvState where
  reg : RegState
  cache : Cache
deriving DecidableEq

/-- The title field of a schema object (`undefined` on a `$ref`). -/
def titleOf : JSchema → Option String
  | .ref _ => none
  | .node t _ _ _ _ => t

/-- The registration write sequence, spelled out once: when the schema
has a truthy id-or-title, write it to `SCHEMA_STORAGE.Other` and
`GLOBAL_SCHEMA_REGISTRY`; then copy every nested component schema into
`SCHEMA_STORAGE.Other`.  The cache-hit and cache-miss branches of
`getOpenApiSchema` each perform these writes inline; the claim theorem
relates both branches to this one function. -/
def convEffect (sch : JSchema) (comps : Option SMap) (sid : Option String)
    (reg : RegState) : RegState :=
  let reg1 := match sid with
    | some i => reg.putOther i sch
    | none => reg
  { reg1 with storage :=
      { reg1.storage with other := reg1.storage.other.setAll (comps.getD []) } }

/-- `getOpenApiSchema(schema)`: memoized conversion that registers the
titled/id-carrying result (and its nested components) on both the miss
path and the hit path — the source duplicates the write sequence in both
branches, and so does this embedding. -/
def getOpenApiSchema (conv : String → JSchema × Option SMap)
    (oidOf : String → Option String) (z : String) (s : ConvState) :
    JSchema × ConvState :=
  match s.cache.get z with
  | some entry =>
    let cid := AList.oor (truthy (oidOf z)) (truthy (titleOf entry.schema))
    let reg1 := match cid with
      | some i => s.reg.putOther i entry.schema
      | none => s.reg
    let reg2 := { reg1 with storage :=
      { reg1.storage with other := reg1.storage.other.setAll (entry.components.getD []) } }
    (entry.schema, { s with reg := reg2 })
  | none =>
    let res := conv z
    let sid := AList.oor (truthy (oidOf z)) (truthy (titleOf res.fst))
    let reg1 := match sid with
      | some i => s.reg.putOther i res.fst
      | none => s.reg
    let reg2 := { reg1 with storage :=
      { reg1.storage with other := reg1.storage.other.setAll (res.snd.getD []) } }
    (res.fst, { reg := reg2, cache := s.cache.set z ⟨res.fst, res.snd⟩ })

/-! ### Document assembler (`createOpenApiDocument`)

`SwaggerModule.createDocument` (which produces the base document from the
application) and zod-openapi's `createDocument` re-projection are external
collaborators: the former's output is the `base` argument, the latter is
the `post` parameter applied as the final step.  The function reads the
registry state and returns it unchanged. -/

structure OpenApiComponents where
  schemas : Option SMap
  restC : List (String × String)
deriving DecidableEq

structure OpenApiDocument where
  components : Option OpenApiComponents
  restD : List (String × String)
deriving DecidableEq

/-- The `components.schemas` map of a document, when present. -/
def OpenApiDocument.getSchemas (d : OpenApiDocument) : Option SMap :=
  d.components.bind (fun c => c.schemas)

/-- The mutation step of `createOpenApiDocument`: ensure
`components.schemas` exists (creating empty objects when absent), copy
every category map in declaration order (Body, Query, Route, Form,
Other), then the global registry. -/
def mergeDocument (base : OpenApiDocument) (s : RegState) : OpenApiDocument :=
  let comps := base.components.getD ⟨none, []⟩
  let schemas0 := comps.schemas.getD []
  let schemas1 :=
    ((((schemas0.setAll s.storage.body).setAll s.storage.query).setAll
        s.storage.route).setAll s.storage.form).setAll s.storage.other
  let schemas2 := schemas1.setAll s.global
  { base with components := some { comps with schemas := some schemas2 } }

/-- `createOpenApiDocument(app, config)`: merge the registry contents into
the base document, then re-project via the external zod-openapi
`createDocument` (`post`).  The registry state is read, never written. -/
def createOpenApiDocument (post : OpenApiDocument → OpenApiDocument)
    (base : OpenApiDocument) (s : RegState) : OpenApiDocument × RegState :=
  (post (mergeDocument base s), s)

/-- The value the merged `components.schemas` associates to a name:
the global registry wins, then the categories in reverse pass order
(Other, Form, Route, Query, Body), then the base document. -/
def mergedLookup (s : RegState) (base : Option SMap) (n : String) : Option JSchema :=
  AList.oor (s.global.get n)
    (AList.oor (s.storage.other.get n)
      (AList.oor (s.storage.form.get n)
        (AList.oor (s.storage.route.get n)
          (AList.oor (s.storage.query.get n)
            (AList.oor (s.storage.body.get n) ((base.getD []).get n))))))

/-! ### Pending route metadata (typed-route / typed-controller decorators) -/

/-- One entry of `PENDING_ROUTE_METADATA`.  The `target`, `descriptor`,
`schema` and `options` fields of the source entry are never consulted by
`applyControllerParametersToRoutes` except to re-apply decorators to the
same method, so the entry keeps the data that determines its processing:
the decorated method name, the route path and the HTTP verb. -/
structure RouteEntry where
  propertyKey : String
  path : Option String
  method : String
deriving DecidableEq

/-- `PENDING_ROUTE_METADATA`, keyed by `target.constructor.name`. -/
abbrev PendingTable := AList (List RouteEntry)

/-- The side-table step of `createRouteDecorator`: create the owner's
array when absent, then push the entry. -/
def recordPendingRoute (owner : String) (e : RouteEntry) (tbl : PendingTable) :
    PendingTable :=
  let tbl1 := match tbl.get owner with
    | none => tbl.set owner []
    | some _ => tbl
  match tbl1.get owner with
  | some l => tbl1.set owner (l ++ [e])
  | none => tbl1

/-- `extractParamNames` on the character list: the regex `/:([^/]+)/g`. -/
def scanParams : List Char → List String
  | [] => []
  | c :: rest =>
    if c = ':' then
      let p := rest.takeWhile (fun d => decide (d ≠ '/'))
      if p.length = 0 then scanParams rest
      else String.mk p :: scanParams (rest.drop p.length)
    else scanParams rest
termination_by l => l.length
decreasing_by
  · simp
  · have := List.length_drop p.length rest
    simp
    omega
  · simp

/-- `extractParamNames(path)`. -/
def extractParamNames (path : String) : List String :=
  scanParams path.toList

/-- `ControllerParamMetadata` (the Zod `schema` field is opaque to the
route-processing pass and omitted). -/
structure CtrlParam where
  name : String
  openApiSchema : JSchema
deriving DecidableEq

/-- One `ApiParam(...)` decorator built by the controller pass. -/
structure ApiParamDec where
  name : String
  required : Bool
  schema : JSchema
deriving DecidableEq

/-- A decorator application to a route method. -/
structure AppliedDec where
  propertyKey : String
  param : ApiParamDec
deriving DecidableEq

/-- The decorators applied to one pending route: every controller
parameter, then each route-path parameter not already covered by a
controller parameter (with a plain string schema). -/
def routeParamDecs (controllerParams : List CtrlParam) (e : RouteEntry) :
    List ApiParamDec :=
  let fromCtrl := controllerParams.map (fun p => ⟨p.name, true, p.openApiSchema⟩)
  let fromPath := match e.path with
    | some p =>
      ((extractParamNames p).filter
        (fun n => ¬ controllerParams.any (fun cp => cp.name = n))).map
        (fun n => ⟨n, true, .node none none .nil .noItems [("type", "string")]⟩)
    | none => []
  fromCtrl ++ fromPath

/-- `applyControllerParametersToRoutes(controllerName, controllerParams)`:
read the pending routes for the owner (returning untouched state when
there are none), apply the parameter decorators to each, then delete the
owner's entry from the side table. -/
def applyControllerParametersToRoutes (controllerName : String)
    (controllerParams : List CtrlParam) (tbl : PendingTable) :
    List AppliedDec × PendingTable :=
  match tbl.get controllerName with
  | none => ([], tbl)
  | some routes =>
    (routes.flatMap (fun r =>
        (routeParamDecs controllerParams r).map (fun d => ⟨r.propertyKey, d⟩)),
      tbl.erase controllerName)

/-- JS `String.split` with a single-character separator, on the character
list (structural recursion, so that concrete parses evaluate). -/
def splitChar (sep : Char) : List Char → List (List Char)
  | [] => [[]]
  | c :: rest =>
    if c = sep then [] :: splitChar sep rest
    else
      match splitChar sep rest with
      | [] => [[c]]
      | g :: gs => (c :: g) :: gs

/-- JS `"a:b:c".split(":")`; on the empty string it returns `[""]`. -/
def splitOnChar (sep : Char) (s : String) : List String :=
  (splitChar sep s.toList).map String.mk

/-- JS `String.trim` (over the ASCII whitespace the inputs use). -/
def trimChars (s : String) : String :=
  String.mk (((s.toList.dropWhile Char.isWhitespace).reverse.dropWhile
    Char.isWhitespace).reverse)

/-! ### Zod issues, exceptions, filters, pipe and response interceptor -/

inductive PathSeg : Type where
  | idx (n : Nat)
  | key (s : String)
deriving DecidableEq

structure ZodIssue where
  code : String
  message : String
  path : List PathSeg
deriving DecidableEq

/-- A `ZodError` is its list of structured issues. -/
abbrev ZodError := List ZodIssue

/-- `ZodValidationException extends BadRequestException`: carries the Zod
error; HTTP status 400. -/
structure ZodValidationException where
  error : ZodError
deriving DecidableEq

def ZodValidationException.getStatus (_ : ZodValidationException) : Nat := 400

/-- `ZodSerializationException extends InternalServerErrorException`:
carries the Zod error; HTTP status 500. -/
structure ZodSerializationException where
  error : ZodError
deriving DecidableEq

def ZodSerializationException.getStatus (_ : ZodSerializationException) : Nat := 500

/-- The body passed to the `HttpException` super constructor. -/
structure ExcBody where
  statusCode : Nat
  message : String
  errors : ZodError
deriving DecidableEq

def ZodValidationException.body (e : ZodValidationException) : ExcBody :=
  ⟨400, "Validation failed", e.error⟩

def ZodSerializationException.body (e : ZodSerializationException) : ExcBody :=
  ⟨500, "Serialization failed", e.error⟩

/-- The JSON body both exception filters produce. -/
structure ErrorResponseBody where
  statusCode : Nat
  timestamp : String
  path : String
  errors : ZodError
deriving DecidableEq

structure HttpResponse where
  status : Nat
  body : ErrorResponseBody
deriving DecidableEq

/-- `ZodValidationExceptionFilter.catch`: responds with the exception
status and `{ statusCode, timestamp, path, errors }`.  The wall clock read
(`new Date().toISOString()`) is the `now` parameter; `request.url` is
`requestUrl`. -/
def zodValidationFilterCatch (exc : ZodValidationException)
    (requestUrl : String) (now : String) : HttpResponse :=
  ⟨exc.getStatus, ⟨exc.getStatus, now, requestUrl, exc.error⟩⟩

/-- `ZodSerializationExceptionFilter.catch`. -/
def zodSerializationFilterCatch (exc : ZodSerializationException)
    (requestUrl : String) (now : String) : HttpResponse :=
  ⟨exc.getStatus, ⟨exc.getStatus, now, requestUrl, exc.error⟩⟩

/-- `ZodValidationPipe.transform`: no schema passes the value through;
otherwise `safeParse` and either return `result.data` or throw a
`ZodValidationException` with the Zod error.  The consumed validation
capability `safeParse` is the function parameter. -/
def zodValidationPipeTransform {V : Type}
    (schema : Option (V → Except ZodError V)) (value : V) :
    Except ZodValidationException V :=
  match schema with
  | none => .ok value
  | some sp =>
    match sp value with
    | .ok d => .ok d
    | .error e => .error ⟨e⟩

/-- One event of the response stream the interceptor subscribes to. -/
inductive StreamEvent (V E : Type) : Type where
  | next (v : V)
  | error (e : E)
  | complete

/-- `TypedRouteInterceptor`: on each `next` value, `safeParse` against the
declared output schema; forward `result.data` on success, signal a
`ZodSerializationException` on failure; upstream errors and completion
pass through. -/
def typedRouteIntercept {V E : Type} (sp : V → Except ZodError V) :
    StreamEvent V E → StreamEvent V (Sum E ZodSerializationException)
  | .next v =>
    match sp v with
    | .ok d => .next d
    | .error e => .error (.inr ⟨e⟩)
  | .error e => .error (.inl e)
  | .complete => .complete

/-- Modelled from the spec (section 6, consumed validation capability):
a concrete instance of `parse(schema, value) -> Result` over flat string
records, used to instantiate witnesses.  It strips keys outside the
schema (as Zod object parsing does) and reports an issue per missing
required key. -/
def recordParse (required allowed : List String) (v : List (String × String)) :
    Except ZodError (List (String × String)) :=
  match required.filter (fun k => ¬ v.any (fun p => p.fst = k)) with
  | [] => .ok (v.filter (fun p => allowed.contains p.fst))
  | missing => .error (missing.map (fun k => ⟨"invalid_type", "Required", [.key k]⟩))

/-! ### Filtering query-string parser (filtering.ts, utils/schema.ts) -/

/-- The `FilterRule` enum values, in declaration order. -/
def filterRules : List String :=
  ["eq", "neq", "gt", "gte", "lt", "lte", "like", "nlike", "in", "nin",
   "isnull", "isnotnull"]

def FilterRule.EQUALS : String := "eq"
def FilterRule.NOT_EQUALS : String := "neq"
def FilterRule.GREATER_THAN : String := "gt"
def FilterRule.GREATER_THAN_OR_EQUALS : String := "gte"
def FilterRule.LESS_THAN : String := "lt"
def FilterRule.LESS_THAN_OR_EQUALS : String := "lte"
def FilterRule.LIKE : String := "like"
def FilterRule.NOT_LIKE : String := "nlike"
def FilterRule.IN : String := "in"
def FilterRule.NOT_IN : String := "nin"
def FilterRule.IS_NULL : String := "isnull"
def FilterRule.IS_NOT_NULL : String := "isnotnull"

/-- A parsed filtering item (TS interface `Filtering`; the enum value is
its string representation). -/
structure Filtering where
  property : String
  rule : String
  value : Option String
deriving DecidableEq

def nullabilityRules : List String := [FilterRule.IS_NULL, FilterRule.IS_NOT_NULL]

/-- An ASCII single quote, written by code point. -/
def sq : String := String.singleton (Char.ofNat 39)

def invalidRuleMessage : String :=
  "Invalid filter rule. Expected one of: " ++ String.intercalate ", " filterRules

def noValueMessage : String := "IS_NULL and IS_NOT_NULL rules should not have a value"

def valueRequiredMessage : String := "Value is required for this filter rule"

/-- `createLiteralUnion(keys, 'filtering')` failure message, with the
rejected value quoted and the allowed set listed (utils/schema.ts). -/
def invalidFilteringPropertyMessage (keys : List String) (p : String) : String :=
  "Invalid filtering property " ++ sq ++ p ++ sq ++ ". Allowed properties are: " ++
    String.intercalate ", " keys

/-- `Object.values(FilterRule).includes(rule)` on the second
colon-delimited part. -/
def filteringRuleOk (parts : List String) : Bool :=
  match parts[1]? with
  | some r => filterRules.contains r
  | none => false

/-- The `superRefine` of `FilteringStringItemSchema`: the colon-separated
rule token must be a `FilterRule`; `isnull`/`isnotnull` need exactly two
colon-delimited parts, every other rule exactly three. -/
def filteringItemIssues (s : String) : List ZodIssue :=
  let parts := splitOnChar ':' s
  if filteringRuleOk parts then
    let rule := (parts[1]?).getD ""
    if nullabilityRules.contains rule then
      if parts.length ≠ 2 then [⟨"custom", noValueMessage, []⟩] else []
    else
      if parts.length ≠ 3 then [⟨"custom", valueRequiredMessage, []⟩] else []
  else [⟨"custom", invalidRuleMessage, []⟩]

/-- The `transform` of `FilteringStringItemSchema`: split on colons; null
rules yield an item with no value field, other rules keep the third part. -/
def filteringItemTransform (s : String) : Filtering :=
  let parts := splitOnChar ':' s
  let property := parts.headD ""
  let rule := (parts[1]?).getD ""
  if nullabilityRules.contains rule then ⟨property, rule, none⟩
  else ⟨property, rule, parts[2]?⟩

/-- `FilteringStringItemSchema(keys)`: superRefine, then transform, then
pipe into `FilteringSchema(keys)` whose property union rejects (throwing
from `createLiteralUnion`, with its fixed `[0, "property"]` path) any
property outside the allowed set. -/
def parseFilteringStringItem (keys : List String) (s : String) :
    Except (List ZodIssue) Filtering :=
  match filteringItemIssues s with
  | [] =>
    let f := filteringItemTransform s
    if keys.contains f.property then .ok f
    else .error [⟨"custom", invalidFilteringPropertyMessage keys f.property,
      [.idx 0, .key "property"]⟩]
  | issues => .error issues

/-- Prefix an element index onto an issue path (Zod array aggregation). -/
def withIdx (i : Nat) (issue : ZodIssue) : ZodIssue :=
  { issue with path := .idx i :: issue.path }

/-- The array pass over the split filtering items: refine failures are
collected (index-prefixed) across all elements; a property failure is a
thrown `ZodError` that aborts the whole parse with only its own issue. -/
def filterItemsLoop (keys : List String) :
    List String → Nat → List ZodIssue → List Filtering →
    Except (List ZodIssue) (List Filtering)
  | [], _, [], acc => .ok acc.reverse
  | [], _, issues, _ => .error issues
  | it :: tl, i, issues, acc =>
    match filteringItemIssues it with
    | [] =>
      let f := filteringItemTransform it
      if keys.contains f.property then filterItemsLoop keys tl (i + 1) issues (f :: acc)
      else .error [⟨"custom", invalidFilteringPropertyMessage keys f.property,
        [.idx 0, .key "property"]⟩]
    | itIssues => filterItemsLoop keys tl (i + 1) (issues ++ itIssues.map (withIdx i)) acc

/-- `createFilterQueryStringSchema(keys)` applied to a present query
string: split on semicolons, drop empty segments, trim, then parse every
item. -/
def parseFilterQueryString (keys : List String) (s : String) :
    Except (List ZodIssue) (List Filtering) :=
  let items := ((splitOnChar ';' s).filter (fun x => x ≠ "")).map trimChars
  filterItemsLoop keys items 0 [] []

/-! ### Sorting query-string parser (sorting.ts) -/

def sortDirections : List String := ["asc", "desc"]

/-- A parsed sorting item (TS interface `Sort`). -/
structure SortItem where
  property : String
  direction : String
deriving DecidableEq

/-- The format regex of `SortingStringSchema`:
`^[^:]+(?::(asc|desc))?$`. -/
def sortingFormatOk (s : String) : Bool :=
  match splitOnChar ':' s with
  | [p] => p ≠ ""
  | [p, d] => p ≠ "" && sortDirections.contains d
  | _ => false

def sortFormatIssue : ZodIssue :=
  ⟨"invalid_string", "Invalid sort format. Expected format: property[:asc|desc]", []⟩

/-- The refine message of `SortingSchema` for a rejected property: it
lists the allowed set but does not mention the rejected value. -/
def invalidSortingPropertyMessage (keys : List String) : String :=
  "Invalid sorting property. Allowed properties are: " ++ String.intercalate ", " keys

/-- The message the repository test suite expects for a rejected sorting
property (sorting.spec.ts), as `createLiteralUnion(keys, 'sorting')` of
utils/schema.ts would produce it: the rejected value is quoted. -/
def expectedSortingPropertyMessage (keys : List String) (p : String) : String :=
  "Invalid sorting property " ++ sq ++ p ++ sq ++ ". Allowed properties are: " ++
    String.intercalate ", " keys

def invalidDirectionMessage : String :=
  "Invalid sort direction. Use either \"asc\" or \"desc\""

/-- `SortingStringSchema(keys)`: regex format check, then transform with
the direction defaulting to `asc`, then pipe into `SortingSchema(keys)`
which refines the property against the allowed set and the direction
against the `asc|desc` enum, collecting an issue per failing field. -/
def parseSortingItem (keys : List String) (s : String) :
    Except (List ZodIssue) SortItem :=
  if ¬ sortingFormatOk s then .error [sortFormatIssue]
  else
    let parts := splitOnChar ':' s
    let property := parts.headD ""
    let direction := (parts[1]?).getD "asc"
    let issues :=
      (if keys.contains property then []
       else [⟨"custom", invalidSortingPropertyMessage keys, [.key "property"]⟩]) ++
      (if sortDirections.contains direction then []
       else [⟨"invalid_enum_value", invalidDirectionMessage, [.key "direction"]⟩])
    match issues with
    | [] => .ok ⟨property, direction⟩
    | l => .error l

/-- The array pass over the split sorting items: every failing element
contributes its issues, index-prefixed. -/
def sortItemsLoop (keys : List String) :
    List String → Nat → List ZodIssue → List SortItem →
    Except (List ZodIssue) (List SortItem)
  | [], _, [], acc => .ok acc.reverse
  | [], _, issues, _ => .error issues
  | it :: tl, i, issues, acc =>
    match parseSortingItem keys it with
    | .ok v => sortItemsLoop keys tl (i + 1) issues (v :: acc)
    | .error itIssues =>
      sortItemsLoop keys tl (i + 1) (issues ++ itIssues.map (withIdx i)) acc

/-- `createSortingQueryStringSchema(keys)` applied to a present query
string: split on commas, trim, parse every item. -/
def parseSortingQueryString (keys : List String) (s : String) :
    Except (List ZodIssue) (List SortItem) :=
  let items := (splitOnChar ',' s).map trimChars
  sortItemsLoop keys items 0 [] []

/-! ### Concrete inputs used by witnesses and counterexamples -/

/-- `{ type: "string" }`. -/
def strSchema : JSchema := .node none none .nil .noItems [("type", "string")]

/-- `{ type: "number" }`. -/
def numSchema : JSchema := .node none none .nil .noItems [("type", "number")]

/-- The Address schema of the test suite: a titled object. -/
def addressSchema : JSchema :=
  .node (some "Address") none
    (.cons "street" strSchema (.cons "city" strSchema .nil)) .noItems
    [("type", "object")]

/-- A titled User schema with the titled Address nested under
`properties`. -/
def userWithAddress : JSchema :=
  .node (some "User") none
    (.cons "name" strSchema (.cons "address" addressSchema .nil)) .noItems
    [("type", "object")]

/-- A titled node `B` nested inside the titled node `A`, itself nested in
an untitled parent: `{ properties: { a: { title: A, properties: { b:
{ title: B } } } } }`. -/
def innerB : JSchema := .node (some "B") none .nil .noItems [("type", "string")]

def midA : JSchema :=
  .node (some "A") none (.cons "b" innerB .nil) .noItems [("type", "object")]

def grandParent : JSchema :=
  .node none none (.cons "a" midA .nil) .noItems [("type", "object")]

/-- A titled User schema with no nested titled node. -/
def userPlain : JSchema :=
  .node (some "User") none (.cons "name" strSchema .nil) .noItems
    [("type", "object")]

/-- A structurally different schema sharing the title User. -/
def userPlainV2 : JSchema :=
  .node (some "User") none (.cons "name" strSchema .nil) .noItems
    [("type", "object"), ("description", "second version")]

/-- A storage holding the same name `X` in two different categories with
different schemas (and nothing else). -/
def xStorage : Storage :=
  { body := [("X", strSchema)], query := [], route := [], form := [],
    other := [("X", numSchema)] }

def xReg : RegState := ⟨xStorage, []⟩

/-- The same storage with one entry in the global registry. -/
def xRegGlobal : RegState := ⟨xStorage, [("G", numSchema)]⟩

/-- A conversion capability for the memoization witness: every instance
converts to `userPlain` with one nested component schema. -/
def demoConv : String → JSchema × Option SMap :=
  fun _ => (userPlain, some [("Comp", strSchema)])

def demoOid : String → Option String := fun _ => none

def demoEntry1 : RouteEntry := ⟨"findAll", none, "Get"⟩

def demoEntry2 : RouteEntry := ⟨"findOne", some ":id", "Get"⟩

/-- A pending-route side table with entries for two owner classes. -/
def demoTable : PendingTable :=
  [("UsersController", [demoEntry1, demoEntry2]),
   ("PostsController", [⟨"list", none, "Get"⟩])]

def demoParams : List CtrlParam := [⟨"orgId", strSchema⟩]

/-! ## Theorems

First the map lemmas, then the structural lemmas about `cleanupSchema`,
then one theorem per claim. -/

namespace AList

theorem oor_assoc {α : Type} (a b c : Option α) :
    oor (oor a b) c = oor a (oor b c) := by
  cases a <;> cases b <;> rfl

theorem get_repl {β : Type} (m : AList β) (k : String) (v : β) (n : String) :
    get (repl m k v) n = if n = k then (get m k).map (fun _ => v) else get m n := by
  induction m with
  | nil => simp [repl, get]
  | cons hd tl ih =>
    obtain ⟨k', v'⟩ := hd
    by_cases hk : k' = k
    · subst hk
      simp only [repl, if_pos rfl, get, ih]
      by_cases hn : n = k'
      · subst hn
        simp only [if_pos rfl]
        cases h : get tl n <;> simp [oor, h]
      · simp [if_neg hn, oor]
    · simp only [repl, if_neg hk, get, ih]
      by_cases hn : n = k
      · subst hn
        have hnk : ¬n = k' := fun h => hk (h ▸ rfl)
        simp only [if_pos rfl, if_neg hnk]
        cases h : get tl n <;> simp [oor]
      · simp [if_neg hn]

theorem get_set {β : Type} (m : AList β) (k : String) (v : β) (n : String) :
    get (m.set k v) n = if n = k then some v else get m n := by
  induction m with
  | nil => simp [set, get, oor]
  | cons hd tl ih =>
    obtain ⟨k', v'⟩ := hd
    by_cases hk : k' = k
    · subst hk
      simp only [set, if_pos rfl, get, get_repl]
      by_cases hn : n = k'
      · subst hn
        simp only [if_pos rfl]
        cases h : get tl n <;> simp [oor]
      · simp [if_neg hn, oor]
    · simp only [set, if_neg hk, get, ih]
      by_cases hn : n = k
      · subst hn
        have hnk : ¬n = k' := fun h => hk (h ▸ rfl)
        simp only [if_pos rfl, if_neg hnk]
        cases h : get tl n <;> simp [oor]
      · simp [if_neg hn]

theorem get_erase {β : Type} (m : AList β) (k : String) (n : String) :
    get (m.erase k) n = if n = k then none else get m n := by
  induction m with
  | nil => simp [erase, get]
  | cons hd tl ih =>
    obtain ⟨k', v'⟩ := hd
    by_cases hk : k' = k
    · subst hk
      have h1 : erase ((k', v') :: tl) k' = erase tl k' := by simp [erase]
      rw [h1, ih]
      by_cases hn : n = k'
      · simp [hn]
      · simp only [if_neg hn, get]
        cases h : get tl n <;> simp [oor, hn, h]
    · have h1 : erase ((k', v') :: tl) k = (k', v') :: erase tl k := by
        simp [erase, hk]
      rw [h1]
      simp only [get, ih]
      by_cases hn : n = k
      · subst hn
        have hnk : ¬n = k' := fun h => hk (h ▸ rfl)
        simp [if_neg hnk, oor]
      · simp [if_neg hn]

theorem get_setAll {β : Type} (m base : AList β) (n : String) :
    get (setAll base m) n = oor (get m n) (get base n) := by
  induction m generalizing base with
  | nil => simp [setAll, get, oor]
  | cons hd tl ih =>
    obtain ⟨k, v⟩ := hd
    simp only [setAll, ih, get, get_set]
    rw [oor_assoc]
    by_cases hn : n = k
    · subst hn
      simp only [if_pos rfl]
      cases h : get tl n <;> simp [oor]
    · simp [if_neg hn, oor]

theorem isSome_get_set {β : Type} (m : AList β) (k : String) (v : β) (n : String)
    (h : (get m n).isSome) : (get (m.set k v) n).isSome := by
  rw [get_set]
  by_cases hn : n = k <;> simp [hn, h]

end AList

theorem Storage.getMap_setIn (s : Storage) (ty : SchemaType) (k : String)
    (v : JSchema) : (s.setIn ty k v).getMap ty = (s.getMap ty).set k v := by
  cases ty <;> rfl

theorem Storage.other_setIn_isSome (s : Storage) (ty : SchemaType) (k : String)
    (v : JSchema) (n : String) (h : (s.other.get n).isSome) :
    ((s.setIn ty k v).other.get n).isSome := by
  cases ty
  · exact h
  · exact h
  · exact h
  · exact h
  · exact AList.isSome_get_set _ _ _ _ h

mutual

theorem cleanupS_fst (name : String) :
    (t : JSchema) → (s : RegState) → (cleanupS name t s).fst = replaceMaxS name t
  | .ref _, _ => rfl
  | .node title oid props items rest, s => by
    cases h : hoistId name title oid with
    | some hh => simp [cleanupS, replaceMaxS, h]
    | none =>
      simp only [cleanupS, replaceMaxS, h]
      rw [cleanupP_fst name props s, cleanupI_fst name items (cleanupP name props s).snd]

theorem cleanupP_fst (name : String) :
    (p : JProps) → (s : RegState) → (cleanupP name p s).fst = replaceMaxP name p
  | .nil, _ => rfl
  | .cons k v tl, s => by
    simp only [cleanupP, replaceMaxP]
    rw [cleanupS_fst name v s, cleanupP_fst name tl (cleanupS name v s).snd]

theorem cleanupI_fst (name : String) :
    (i : JItems) → (s : RegState) → (cleanupI name i s).fst = replaceMaxI name i
  | .noItems, _ => rfl
  | .someItems v, s => by
    simp only [cleanupI, replaceMaxI]
    rw [cleanupS_fst name v s]

end

mutual

theorem cleanupS_mono (name : String) :
    (t : JSchema) → (s : RegState) → (k : String) →
    (s.storage.other.get k).isSome →
    (((cleanupS name t s).snd).storage.other.get k).isSome
  | .ref _, _, _, h => h
  | .node title oid props items rest, s, k, h => by
    cases hh : hoistId name title oid with
    | some x =>
      simp only [cleanupS, hh, RegState.putOther]
      exact AList.isSome_get_set _ _ _ _ h
    | none =>
      simp only [cleanupS, hh]
      exact cleanupI_mono name items (cleanupP name props s).snd k
        (cleanupP_mono name props s k h)

theorem cleanupP_mono (name : String) :
    (p : JProps) → (s : RegState) → (k : String) →
    (s.storage.other.get k).isSome →
    (((cleanupP name p s).snd).storage.other.get k).isSome
  | .nil, _, _, h => h
  | .cons _ v tl, s, k, h => by
    simp only [cleanupP]
    exact cleanupP_mono name tl (cleanupS name v s).snd k
      (cleanupS_mono name v s k h)

theorem cleanupI_mono (name : String) :
    (i : JItems) → (s : RegState) → (k : String) →
    (s.storage.other.get k).isSome →
    (((cleanupI name i s).snd).storage.other.get k).isSome
  | .noItems, _, _, h => h
  | .someItems v, s, k, h => by
    simp only [cleanupI]
    exact cleanupS_mono name v s k h

end

mutual

theorem cleanupS_reg (name : String) :
    (t : JSchema) → (s : RegState) → (T : String) →
    T ∈ maxTitlesS name t →
    (((cleanupS name t s).snd).storage.other.get T).isSome
  | .ref _, _, _, hm => by simp [maxTitlesS] at hm
  | .node title oid props items rest, s, T, hm => by
    cases hh : hoistId name title oid with
    | some x =>
      have hx : T = x := by
        simp [maxTitlesS, hh] at hm
        exact hm
      subst hx
      simp only [cleanupS, hh, RegState.putOther]
      rw [AList.get_set]
      simp
    | none =>
      simp only [maxTitlesS, hh, List.mem_append] at hm
      simp only [cleanupS, hh]
      cases hm with
      | inl hp =>
        exact cleanupI_mono name items (cleanupP name props s).snd T
          (cleanupP_reg name props s T hp)
      | inr hi =>
        exact cleanupI_reg name items (cleanupP name props s).snd T hi

theorem cleanupP_reg (name : String) :
    (p : JProps) → (s : RegState) → (T : String) →
    T ∈ maxTitlesP name p →
    (((cleanupP name p s).snd).storage.other.get T).isSome
  | .nil, _, _, hm => by simp [maxTitlesP] at hm
  | .cons _ v tl, s, T, hm => by
    simp only [maxTitlesP, List.mem_append] at hm
    simp only [cleanupP]
    cases hm with
    | inl hv =>
      exact cleanupP_mono name tl (cleanupS name v s).snd T
        (cleanupS_reg name v s T hv)
    | inr ht =>
      exact cleanupP_reg name tl (cleanupS name v s).snd T ht

theorem cleanupI_reg (name : String) :
    (i : JItems) → (s : RegState) → (T : String) →
    T ∈ maxTitlesI name i →
    (((cleanupI name i s).snd).storage.other.get T).isSome
  | .noItems, _, _, hm => by simp [maxTitlesI] at hm
  | .someItems v, s, T, hm => by
    simp only [cleanupI]
    exact cleanupS_reg name v s T hm

end

mutual

theorem hoistFree_cleanupS (name : String) :
    (t : JSchema) → (s : RegState) → hoistFreeS name t = true →
    cleanupS name t s = (t, s)
  | .ref _, _, _ => rfl
  | .node title oid props items rest, s, h => by
    simp only [hoistFreeS, Bool.and_eq_true] at h
    obtain ⟨⟨h1, h2⟩, h3⟩ := h
    have hh : hoistId name title oid = none := by
      cases hx : hoistId name title oid with
      | none => rfl
      | some y => rw [hx] at h1; simp at h1
    simp only [cleanupS, hh]
    rw [hoistFree_cleanupP name props s h2]
    rw [hoistFree_cleanupI name items s h3]

theorem hoistFree_cleanupP (name : String) :
    (p : JProps) → (s : RegState) → hoistFreeP name p = true →
    cleanupP name p s = (p, s)
  | .nil, _, _ => rfl
  | .cons k v tl, s, h => by
    simp only [hoistFreeP, Bool.and_eq_true] at h
    obtain ⟨h1, h2⟩ := h
    simp only [cleanupP]
    rw [hoistFree_cleanupS name v s h1]
    rw [hoistFree_cleanupP name tl s h2]

theorem hoistFree_cleanupI (name : String) :
    (i : JItems) → (s : RegState) → hoistFreeI name i = true →
    cleanupI name i s = (i, s)
  | .noItems, _, _ => rfl
  | .someItems v, s, h => by
    simp only [cleanupI]
    rw [hoistFree_cleanupS name v s h]

end

mutual

theorem replaceMax_hoistFreeS (name : String) :
    (t : JSchema) → hoistFreeS name (replaceMaxS name t) = true
  | .ref _ => rfl
  | .node title oid props items rest => by
    cases hh : hoistId name title oid with
    | some x => simp [replaceMaxS, hh, hoistFreeS]
    | none =>
      simp only [replaceMaxS, hh, hoistFreeS]
      simp [replaceMax_hoistFreeP name props, replaceMax_hoistFreeI name items]

theorem replaceMax_hoistFreeP (name : String) :
    (p : JProps) → hoistFreeP name (replaceMaxP name p) = true
  | .nil => rfl
  | .cons _ v tl => by
    simp [replaceMaxP, hoistFreeP, replaceMax_hoistFreeS name v,
      replaceMax_hoistFreeP name tl]

theorem replaceMax_hoistFreeI (name : String) :
    (i : JItems) → hoistFreeI name (replaceMaxI name i) = true
  | .noItems => rfl
  | .someItems v => by
    simp [replaceMaxI, hoistFreeI, replaceMax_hoistFreeS name v]

end

/-- C1 (as stated, refuted): registering the untitled schema
`grandParent` under the name User leaves the nested titled node `B`
(which sits under `properties` of the titled child `A`) unregistered:
the walk of `registerSchemaRef` stops at the maximal titled child `A`
and never registers or references the deeper titled node `B`. -/
theorem registerSchemaRef_nested_grandchild_cex :
    ("B" ∈ nestedTitled "User" grandParent)
    ∧ (registerSchemaRef "User" grandParent .Body emptyReg).snd.storage.other.get "B"
        = none
    ∧ (registerSchemaRef "User" grandParent .Body emptyReg).snd.global.get "B"
        = none := by
  refine ⟨by decide, by decide, by decide⟩

/-- C1 (amended): for every `registerSchemaRef(name, S, category)` call,
the structure stored under `name` (in the category map and the global
registry) is `S` with every maximal hoistable node — each nested node
whose truthy title (or id) differs from `name` and which is not enclosed
in another such node — replaced by a `$ref`; the stored structure
contains no inline titled node at all, each maximal hoistable node is
registered under its own identifier in the Other category, and the call
returns the Reference to `name`. -/
theorem registerSchemaRef_hoists_maximal (name : String) (S : JSchema)
    (ty : SchemaType) (s0 : RegState) :
    (((registerSchemaRef name S ty s0).snd.storage.getMap ty).get name
        = some (replaceMaxS name S))
    ∧ ((registerSchemaRef name S ty s0).snd.global.get name
        = some (replaceMaxS name S))
    ∧ hoistFreeS name (replaceMaxS name S) = true
    ∧ (∀ T, T ∈ maxTitlesS name S →
        ((registerSchemaRef name S ty s0).snd.storage.other.get T).isSome)
    ∧ (registerSchemaRef name S ty s0).fst = JSchema.ref (refPath name) := by
  refine ⟨?_, ?_, replaceMax_hoistFreeS name S, ?_, rfl⟩
  · simp only [registerSchemaRef]
    rw [Storage.getMap_setIn, AList.get_set, if_pos rfl, cleanupS_fst]
  · simp only [registerSchemaRef]
    rw [AList.get_set, if_pos rfl, cleanupS_fst]
  · intro T hT
    simp only [registerSchemaRef]
    exact Storage.other_setIn_isSome _ _ _ _ _ (cleanupS_reg name S s0 T hT)

/-- Witness for C1 (amended) at the User/Address pair of the test suite. -/
theorem registerSchemaRef_hoists_maximal_witness :
    ("Address" ∈ maxTitlesS "User" userWithAddress)
    ∧ ((registerSchemaRef "User" userWithAddress .Body emptyReg).snd.storage.other.get
        "Address").isSome := by
  refine ⟨by decide, ?_⟩
  exact (registerSchemaRef_hoists_maximal "User" userWithAddress .Body
    emptyReg).2.2.2.1 "Address" (by decide)

/-- C2 (as stated, refuted): registering the titled schema
`userWithAddress` under its own title User and looking User up afterwards
does not return a structurally equal value: the nested titled Address
node has been replaced by a Reference in the stored structure. -/
theorem registerByName_lookup_rewrites_cex :
    titleOf userWithAddress = some "User"
    ∧ (registerSchemaRef "User" userWithAddress .Other emptyReg).snd.global.get "User"
        ≠ some userWithAddress
    ∧ ((registerSchemaRef "User" userWithAddress .Other emptyReg).snd.storage.other.get
        "User") ≠ some userWithAddress := by
  refine ⟨rfl, by decide, by decide⟩

/-- C2 (amended): for schemas carrying title `T` and containing no nested
hoistable node, registering under `T` and looking `T` up (in the category
map and the global registry) returns a structurally equal value, and a
second registration of `S2` under the same `T` silently overwrites, the
lookup then returning `S2` — last write wins, with no conflict
detection. -/
theorem registerByName_lookup_last_write (T : String) (S S2 : JSchema)
    (c1 c2 : SchemaType) (s0 : RegState)
    (htS : titleOf S = some T) (htS2 : titleOf S2 = some T)
    (h1 : hoistFreeS T S = true) (h2 : hoistFreeS T S2 = true) :
    ((registerSchemaRef T S c1 s0).snd.global.get T = some S)
    ∧ (((registerSchemaRef T S c1 s0).snd.storage.getMap c1).get T = some S)
    ∧ ((registerSchemaRef T S2 c2
          (registerSchemaRef T S c1 s0).snd).snd.global.get T = some S2) := by
  refine ⟨?_, ?_, ?_⟩
  · simp only [registerSchemaRef, hoistFree_cleanupS T S s0 h1]
    rw [AList.get_set, if_pos rfl]
  · simp only [registerSchemaRef, hoistFree_cleanupS T S s0 h1]
    rw [Storage.getMap_setIn, AList.get_set, if_pos rfl]
  · simp only [registerSchemaRef,
      hoistFree_cleanupS T S s0 h1,
      hoistFree_cleanupS T S2 _ h2]
    rw [AList.get_set, if_pos rfl]

/-- Witness for C2 (amended): two versions of a titled User schema,
registered in sequence from the empty registry. -/
theorem registerByName_lookup_last_write_witness :
    titleOf userPlain = some "User"
    ∧ hoistFreeS "User" userPlain = true
    ∧ ((registerSchemaRef "User" userPlain .Other emptyReg).snd.global.get "User"
        = some userPlain)
    ∧ ((registerSchemaRef "User" userPlainV2 .Other
          (registerSchemaRef "User" userPlain .Other emptyReg).snd).snd.global.get
        "User" = some userPlainV2) := by
  have h := registerByName_lookup_last_write "User" userPlain userPlainV2
    .Other .Other emptyReg rfl rfl (by decide) (by decide)
  exact ⟨rfl, by decide, h.1, h.2.2⟩

/-- C3 (as stated, refuted): with the name `X` present in both the Body
and the Other category maps (with different schemas) and an empty global
registry, the assembled `components.schemas` does not contain the Body
entry `(X, strSchema)`: the Other pass, which runs later, overwrote it. -/
theorem createOpenApiDocument_category_pair_cex :
    xStorage.body.get "X" = some strSchema
    ∧ xReg.global = []
    ∧ (((createOpenApiDocument id ⟨none, []⟩ xReg).fst.getSchemas.getD []).get "X"
        ≠ some strSchema)
    ∧ (((createOpenApiDocument id ⟨none, []⟩ xReg).fst.getSchemas.getD []).get "X"
        = some numSchema) := by
  refine ⟨rfl, rfl, by decide, by decide⟩

/-- C3 (amended): the assembled document always carries a
`components.schemas` map developed from the base document by the write
passes in order Body, Query, Route, Form, Other, then the global
registry: each name resolves to its last write — the global registry
entry when present, else the last category map holding the name, else the
base document entry.  In particular the global pass takes precedence over
every category entry on a name collision. -/
theorem createOpenApiDocument_merges (base : OpenApiDocument) (s : RegState) :
    ((createOpenApiDocument id base s).fst.getSchemas).isSome
    ∧ (∀ n, ((createOpenApiDocument id base s).fst.getSchemas.getD []).get n
        = mergedLookup s base.getSchemas n)
    ∧ (∀ n v, s.global.get n = some v →
        ((createOpenApiDocument id base s).fst.getSchemas.getD []).get n = some v) := by
  have hmain : ∀ n, ((createOpenApiDocument id base s).fst.getSchemas.getD []).get n
      = mergedLookup s base.getSchemas n := by
    intro n
    cases hc : base.components with
    | none =>
      simp [createOpenApiDocument, mergeDocument, OpenApiDocument.getSchemas,
        mergedLookup, hc, AList.get_setAll]
    | some c =>
      cases hs : c.schemas with
      | none =>
        simp [createOpenApiDocument, mergeDocument, OpenApiDocument.getSchemas,
          mergedLookup, hc, hs, AList.get_setAll]
      | some m =>
        simp [createOpenApiDocument, mergeDocument, OpenApiDocument.getSchemas,
          mergedLookup, hc, hs, AList.get_setAll]
  refine ⟨?_, hmain, ?_⟩
  · simp [createOpenApiDocument, mergeDocument, OpenApiDocument.getSchemas]
  · intro n v hv
    rw [hmain n]
    simp [mergedLookup, hv, AList.oor]

/-- Witness for C3 (amended): the global entry `G` wins in the assembled
document. -/
theorem createOpenApiDocument_merges_witness :
    xRegGlobal.global.get "G" = some numSchema
    ∧ (((createOpenApiDocument id ⟨none, []⟩ xRegGlobal).fst.getSchemas.getD []).get "G"
        = some numSchema) := by
  refine ⟨rfl, ?_⟩
  exact (createOpenApiDocument_merges ⟨none, []⟩ xRegGlobal).2.2 "G" numSchema rfl

/-- C9: `createOpenApiDocument` reads the registry and leaves it
unchanged, so a second call on the same base document with the registry
state produced by the first call yields an identical output document. -/
theorem createOpenApiDocument_idempotent (post : OpenApiDocument → OpenApiDocument)
    (base : OpenApiDocument) (s : RegState) :
    ((createOpenApiDocument post base s).snd = s)
    ∧ ((createOpenApiDocument post base
          ((createOpenApiDocument post base s).snd)).fst
        = (createOpenApiDocument post base s).fst) :=
  ⟨rfl, rfl⟩

/-- C4: starting from a state where the instance `z` is not cached, a
second `getOpenApiSchema` call on `z` (a cache hit) returns the same
structural schema as the first, applies exactly the registration write
sequence of the miss path (`convEffect` of the converted schema, its
components and its truthy id-or-title) to the registries, and leaves the
cache unchanged. -/
theorem getOpenApiSchema_cache_hit_reregisters
    (conv : String → JSchema × Option SMap) (oidOf : String → Option String)
    (z : String) (s0 : ConvState) (hmiss : s0.cache.get z = none) :
    ((getOpenApiSchema conv oidOf z s0).fst = (conv z).fst)
    ∧ ((getOpenApiSchema conv oidOf z
          ((getOpenApiSchema conv oidOf z s0).snd)).fst
        = (getOpenApiSchema conv oidOf z s0).fst)
    ∧ ((getOpenApiSchema conv oidOf z s0).snd.reg
        = convEffect (conv z).fst (conv z).snd
            (AList.oor (truthy (oidOf z)) (truthy (titleOf (conv z).fst))) s0.reg)
    ∧ ((getOpenApiSchema conv oidOf z
          ((getOpenApiSchema conv oidOf z s0).snd)).snd.reg
        = convEffect (conv z).fst (conv z).snd
            (AList.oor (truthy (oidOf z)) (truthy (titleOf (conv z).fst)))
            ((getOpenApiSchema conv oidOf z s0).snd.reg))
    ∧ ((getOpenApiSchema conv oidOf z
          ((getOpenApiSchema conv oidOf z s0).snd)).snd.cache
        = (getOpenApiSchema conv oidOf z s0).snd.cache) := by
  have h1 : getOpenApiSchema conv oidOf z s0 =
      ((conv z).fst,
        ⟨convEffect (conv z).fst (conv z).snd
            (AList.oor (truthy (oidOf z)) (truthy (titleOf (conv z).fst))) s0.reg,
          s0.cache.set z ⟨(conv z).fst, (conv z).snd⟩⟩) := by
    simp only [getOpenApiSchema, hmiss, convEffect]
  have hc : (s0.cache.set z ⟨(conv z).fst, (conv z).snd⟩).get z
      = some ⟨(conv z).fst, (conv z).snd⟩ := by
    rw [AList.get_set, if_pos rfl]
  refine ⟨by rw [h1], ?_, by rw [h1], ?_, ?_⟩ <;>
    · rw [h1]
      simp only [getOpenApiSchema, hc, convEffect]

/-- Witness for C4 at a concrete conversion capability. -/
theorem getOpenApiSchema_cache_hit_reregisters_witness :
    ((⟨emptyReg, []⟩ : ConvState).cache.get "u1" = none)
    ∧ ((getOpenApiSchema demoConv demoOid "u1"
          ((getOpenApiSchema demoConv demoOid "u1" ⟨emptyReg, []⟩).snd)).fst
        = (getOpenApiSchema demoConv demoOid "u1" ⟨emptyReg, []⟩).fst)
    ∧ ((getOpenApiSchema demoConv demoOid "u1"
          ((getOpenApiSchema demoConv demoOid "u1" ⟨emptyReg, []⟩).snd)).snd.cache
        = (getOpenApiSchema demoConv demoOid "u1" ⟨emptyReg, []⟩).snd.cache) := by
  have h := getOpenApiSchema_cache_hit_reregisters demoConv demoOid "u1"
    ⟨emptyReg, []⟩ rfl
  exact ⟨rfl, h.2.1, h.2.2.2.2⟩

/-- C5: running the class-level decorator pass
(`applyControllerParametersToRoutes`) for an owner consumes each of the
owner's pending entries exactly once (producing their parameter-decorator
applications in order), removes the owner's entries from the side table,
and leaves every other owner's entries unchanged; a method-level
decorator records its entry by appending it under its owner's key. -/
theorem applyControllerParametersToRoutes_consumes (owner : String)
    (params : List CtrlParam) (tbl : PendingTable) :
    ((applyControllerParametersToRoutes owner params tbl).snd.get owner = none)
    ∧ (∀ o, o ≠ owner →
        (applyControllerParametersToRoutes owner params tbl).snd.get o = tbl.get o)
    ∧ ((applyControllerParametersToRoutes owner params tbl).fst
        = ((tbl.get owner).getD []).flatMap (fun r =>
            (routeParamDecs params r).map (fun d => ⟨r.propertyKey, d⟩)))
    ∧ (∀ e, (recordPendingRoute owner e tbl).get owner
        = some ((tbl.get owner).getD [] ++ [e])) := by
  refine ⟨?_, ?_, ?_, ?_⟩
  · cases h : tbl.get owner with
    | none => simp only [applyControllerParametersToRoutes, h]
    | some routes =>
      simp only [applyControllerParametersToRoutes, h]
      rw [AList.get_erase, if_pos rfl]
  · intro o ho
    cases h : tbl.get owner with
    | none => simp only [applyControllerParametersToRoutes, h]
    | some routes =>
      simp only [applyControllerParametersToRoutes, h]
      rw [AList.get_erase, if_neg ho]
  · cases h : tbl.get owner with
    | none => simp [applyControllerParametersToRoutes, h]
    | some routes => simp [applyControllerParametersToRoutes, h]
  · intro e
    cases h : tbl.get owner with
    | none =>
      simp only [recordPendingRoute, h]
      rw [AList.get_set, if_pos rfl]
      rw [AList.get_set, if_pos rfl]
      simp
    | some l =>
      simp only [recordPendingRoute, h]
      rw [AList.get_set, if_pos rfl]
      simp [h]

/-- Witness for C5 on a two-owner side table. -/
theorem applyControllerParametersToRoutes_consumes_witness :
    ((applyControllerParametersToRoutes "UsersController" demoParams
        demoTable).snd.get "UsersController" = none)
    ∧ ((applyControllerParametersToRoutes "UsersController" demoParams
        demoTable).snd.get "PostsController" = demoTable.get "PostsController") := by
  have h := applyControllerParametersToRoutes_consumes "UsersController"
    demoParams demoTable
  exact ⟨h.1, h.2.1 "PostsController" (by decide)⟩

/-- C6: a request value failing its declared input schema makes the
validation pipe throw a `ZodValidationException` (status 400, body
message Validation failed), whose filter responds 400 with
`{ statusCode, timestamp, path, errors }`; a handler value failing its
declared output schema makes the route interceptor signal the distinct
`ZodSerializationException` (status 500, body message Serialization
failed), whose filter responds 500 with the same body shape; in both
cases `errors` is the structured issue list of the failed parse. -/
theorem validation_error_pipeline {V E : Type} (sp : V → Except ZodError V)
    (v : V) (e : ZodError) (url now : String) :
    (sp v = .error e →
      zodValidationPipeTransform (some sp) v = .error ⟨e⟩
      ∧ ZodValidationException.getStatus ⟨e⟩ = 400
      ∧ ZodValidationException.body ⟨e⟩ = ⟨400, "Validation failed", e⟩
      ∧ zodValidationFilterCatch ⟨e⟩ url now = ⟨400, ⟨400, now, url, e⟩⟩)
    ∧ (sp v = .error e →
      typedRouteIntercept (E := E) sp (.next v) = .error (.inr ⟨e⟩)
      ∧ ZodSerializationException.getStatus ⟨e⟩ = 500
      ∧ ZodSerializationException.body ⟨e⟩ = ⟨500, "Serialization failed", e⟩
      ∧ zodSerializationFilterCatch ⟨e⟩ url now = ⟨500, ⟨500, now, url, e⟩⟩) := by
  constructor
  · intro h
    refine ⟨?_, rfl, rfl, rfl⟩
    simp [zodValidationPipeTransform, h]
  · intro h
    refine ⟨?_, rfl, rfl, rfl⟩
    simp [typedRouteIntercept, h]

/-- Witness for C6: a record missing its required `name` key. -/
theorem validation_error_pipeline_witness :
    (recordParse ["name"] ["name"] []
        = .error [⟨"invalid_type", "Required", [.key "name"]⟩])
    ∧ (zodValidationPipeTransform (some (recordParse ["name"] ["name"])) []
        = .error ⟨[⟨"invalid_type", "Required", [.key "name"]⟩]⟩)
    ∧ (typedRouteIntercept (E := Empty) (recordParse ["name"] ["name"]) (.next [])
        = .error (.inr ⟨[⟨"invalid_type", "Required", [.key "name"]⟩]⟩))
    ∧ (zodValidationFilterCatch ⟨[⟨"invalid_type", "Required", [.key "name"]⟩]⟩
        "/users" "t0"
        = ⟨400, ⟨400, "t0", "/users", [⟨"invalid_type", "Required", [.key "name"]⟩]⟩⟩) := by
  have h := validation_error_pipeline (E := Empty)
    (recordParse ["name"] ["name"]) []
    [⟨"invalid_type", "Required", [.key "name"]⟩] "/users" "t0"
  have hp : recordParse ["name"] ["name"] ([] : List (String × String))
      = .error [⟨"invalid_type", "Required", [.key "name"]⟩] := rfl
  exact ⟨hp, (h.1 hp).1, (h.2 hp).1, (h.1 hp).2.2.2⟩

/-- C10: for every value emitted by a handler on a route with a declared
output schema, the interceptor forwards the parse result (the schema's
transformed output), not the original value, when the parse succeeds, and
forwards no value — signalling a `ZodSerializationException` carrying the
issues — when it fails. -/
theorem typedRouteIntercept_forwards_parsed {V E : Type}
    (sp : V → Except ZodError V) (v : V) :
    (∀ d, sp v = .ok d → typedRouteIntercept (E := E) sp (.next v) = .next d)
    ∧ (∀ e, sp v = .error e →
        typedRouteIntercept (E := E) sp (.next v) = .error (.inr ⟨e⟩)) := by
  constructor <;> intro x h <;> simp [typedRouteIntercept, h]

/-- Witness for C10: the parse strips an unknown key, and the stripped
record — not the handler's value — is forwarded. -/
theorem typedRouteIntercept_forwards_parsed_witness :
    (recordParse [] ["name"] [("name", "a"), ("extra", "b")]
        = .ok [("name", "a")])
    ∧ (typedRouteIntercept (E := Empty) (recordParse [] ["name"])
        (.next [("name", "a"), ("extra", "b")]) = .next [("name", "a")])
    ∧ ([("name", "a")] ≠ [("name", "a"), ("extra", "b")]) := by
  refine ⟨rfl, ?_, by decide⟩
  exact (typedRouteIntercept_forwards_parsed (E := Empty)
    (recordParse [] ["name"]) [("name", "a"), ("extra", "b")]).1 [("name", "a")] rfl

/-- C7: a filtering item parses successfully only when its second
colon-delimited token is one of the twelve filter rules; a successful
`isnull`/`isnotnull` item has exactly two colon-delimited parts and no
value field, every other successful item has exactly three parts with the
value present; and on the concrete inputs: `"age:gt:25;name:like:john"`
parses to two items with rules GREATER_THAN and LIKE, `"email:isnull"`
to one item without value, and `"email:eq"` yields the structured
value-required issue. -/
theorem filtering_parser_contract :
    (∀ keys s f, parseFilteringStringItem keys s = .ok f →
      ((splitOnChar ':' s)[1]? = some f.rule
        ∧ f.rule ∈ filterRules
        ∧ (f.rule ∈ nullabilityRules →
            (splitOnChar ':' s).length = 2 ∧ f.value = none)
        ∧ (f.rule ∉ nullabilityRules →
            (splitOnChar ':' s).length = 3 ∧ f.value = (splitOnChar ':' s)[2]?)))
    ∧ (parseFilterQueryString ["age", "name", "email"] "age:gt:25;name:like:john"
        = .ok [⟨"age", FilterRule.GREATER_THAN, some "25"⟩,
               ⟨"name", FilterRule.LIKE, some "john"⟩])
    ∧ (parseFilterQueryString ["age", "name", "email"] "email:isnull"
        = .ok [⟨"email", FilterRule.IS_NULL, none⟩])
    ∧ (parseFilterQueryString ["age", "name", "email"] "email:eq"
        = .error [⟨"custom", valueRequiredMessage, [.idx 0]⟩]) := by
  refine ⟨?_, by rfl, by rfl, by rfl⟩
  intro keys s f h
  have hi : filteringItemIssues s = [] := by
    cases hcase : filteringItemIssues s with
    | nil => rfl
    | cons a l =>
      simp only [parseFilteringStringItem, hcase] at h
      exact Except.noConfusion h
  simp only [parseFilteringStringItem, hi] at h
  have hf : f = filteringItemTransform s := by
    split at h
    · injection h with h2
      exact h2.symm
    · exact Except.noConfusion h
  subst hf
  simp only [filteringItemIssues] at hi
  split at hi
  case isFalse hro => exact List.noConfusion hi
  case isTrue hro =>
    obtain ⟨r, hp, hr⟩ : ∃ r, (splitOnChar ':' s)[1]? = some r
        ∧ filterRules.contains r = true := by
      revert hro
      unfold filteringRuleOk
      cases hp : (splitOnChar ':' s)[1]? with
      | none => intro hx; cases hx
      | some r => intro hx; exact ⟨r, rfl, hx⟩
    have hrule : (filteringItemTransform s).rule = r := by
      simp only [filteringItemTransform, hp, Option.getD_some]
      split <;> rfl
    rw [hrule]
    have hrm : r ∈ filterRules := List.mem_of_elem_eq_true hr
    refine ⟨hp, hrm, ?_, ?_⟩
    · intro hn
      have hnc : nullabilityRules.contains r = true := List.elem_eq_true_of_mem hn
      rw [hp] at hi
      simp only [Option.getD_some] at hi
      rw [if_pos hnc] at hi
      split at hi
      · exact List.noConfusion hi
      case isFalse h2 =>
        refine ⟨by omega, ?_⟩
        simp only [filteringItemTransform, hp, Option.getD_some]
        rw [if_pos hnc]
    · intro hn
      have hnc : ¬ (nullabilityRules.contains r = true) :=
        fun hc => hn (List.mem_of_elem_eq_true hc)
      rw [hp] at hi
      simp only [Option.getD_some] at hi
      rw [if_neg hnc] at hi
      split at hi
      · exact List.noConfusion hi
      case isFalse h3 =>
        refine ⟨by omega, ?_⟩
        simp only [filteringItemTransform, hp, Option.getD_some]
        rw [if_neg hnc]

/-- Witness for C7 on a successfully parsed item. -/
theorem filtering_parser_contract_witness :
    (parseFilteringStringItem ["age"] "age:gt:25" = .ok ⟨"age", "gt", some "25"⟩)
    ∧ ("gt" ∈ filterRules)
    ∧ ((splitOnChar ':' "age:gt:25").length = 3) := by
  refine ⟨rfl, ?_, ?_⟩
  · exact (filtering_parser_contract.1 ["age"] "age:gt:25"
      ⟨"age", "gt", some "25"⟩ rfl).2.1
  · exact ((filtering_parser_contract.1 ["age"] "age:gt:25"
      ⟨"age", "gt", some "25"⟩ rfl).2.2.2 (by decide)).1

/-- C8 (code evaluated at the inputs): the sorting parser accepts
`"email:asc,computedField:desc"` and defaults `"email"` to ascending as
the claim states, but on `"invalid:asc"` the issue it produces carries
the message `Invalid sorting property. Allowed properties are: email,
computedField` — listing the allowed set yet not naming the rejected
property, unlike the message the repository's own test suite expects
(the `createLiteralUnion` message with the rejected value quoted). -/
theorem sorting_parser_behaviour :
    (parseSortingQueryString ["email", "computedField"] "email:asc,computedField:desc"
      = .ok [⟨"email", "asc"⟩, ⟨"computedField", "desc"⟩])
    ∧ (parseSortingQueryString ["email", "computedField"] "email"
      = .ok [⟨"email", "asc"⟩])
    ∧ (parseSortingQueryString ["email", "computedField"] "invalid:asc"
      = .error [⟨"custom", invalidSortingPropertyMessage ["email", "computedField"],
          [.idx 0, .key "property"]⟩])
    ∧ (invalidSortingPropertyMessage ["email", "computedField"]
        ≠ expectedSortingPropertyMessage ["email", "computedField"] "invalid") := by
  refine ⟨rfl, rfl, rfl, by decide⟩

end Nzoth
